import Mathlib

/-!
Shallow embedding of the video-clip preprocessing transforms of
src/datasets/utils/transforms.py: Compose, ToTensor, RandomHorizontalFlip,
Scale and RandomCrop, each acting on a clip given as a list of frames.

A frame is either a dense numpy-style array of shape (height, width,
channels), a PIL-style image object, or any other python object (an opaque
tag).  Pixel values are rationals.  The process-global python random
generator is modelled as an abstract stream of naturals together with a
current position; each draw consumes one stream element.  Python exceptions
are modelled with an Except monad.
-/

/-- Errors a transform call can raise (python exception classes). -/
inductive Err : Type
  | typeError
  | assertionError
  | valueError
  | indexError
  | attributeError
  deriving DecidableEq

/-- A numpy ndarray of shape (h, w, c); the field data reads the entry at
row y, column x, channel ch as data y x ch. -/
structure NDArray : Type where
  h : Nat
  w : Nat
  c : Nat
  data : Nat → Nat → Nat → ℚ

/-- A PIL image object: the size attribute is (width, height); px y x ch
reads a pixel.  Pixels outside the stored extent are irrelevant except
through the explicit bound checks of the operations below. -/
structure PILImage : Type where
  width : Nat
  height : Nat
  channels : Nat
  px : Nat → Nat → Nat → ℚ

/-- A frame of a clip: a numpy array, a PIL image, or any other python
object (neither supported representation), kept as an opaque tag. -/
inductive Frame : Type
  | arr (a : NDArray)
  | pil (p : PILImage)
  | obj (tag : Nat)

/-- The process-global python random generator, modelled abstractly: a
stream of naturals and a current position. -/
structure RNG : Type where
  seq : Nat → Nat
  pos : Nat

/-- Consuming one element of the random stream. -/
def RNG.advance (g : RNG) : RNG :=
  { seq := g.seq, pos := g.pos + 1 }

/-- python random.randint lo hi draws a uniform integer from the inclusive
range between lo and hi; modelled by reducing the next stream element
modulo the size of that range. -/
def RNG.randint (g : RNG) (lo hi : Nat) : Nat × RNG :=
  (lo + g.seq g.pos % (hi - lo + 1), g.advance)

/-- The python test random.random() < 0.5 is a fair coin; modelled as the
parity of the next stream element.  The draw itself always consumes one
element (see RNG.advance at each use site). -/
def RNG.coinVal (g : RNG) : Bool :=
  g.seq g.pos % 2 == 0

/-- python np.array applied to a PIL image: an (H, W, C) array. -/
def pilToArray (p : PILImage) : NDArray :=
  { h := p.height, w := p.width, c := p.channels, data := p.px }

/-- Obtaining a frame as a numpy array, as in the conversion loop of
ToTensor: arrays pass through, PIL images are converted with np.array, and
any other object raises TypeError. -/
def frameToArray : Frame → Except Err NDArray
  | Frame.arr a => Except.ok a
  | Frame.pil p => Except.ok (pilToArray p)
  | Frame.obj _ => Except.error Err.typeError

/-- The isinstance dispatch reading the frame dimensions (im_h, im_w) in
RandomCrop: shape for arrays, size (transposed to (h, w)) for PIL images,
TypeError otherwise. -/
def frameSize : Frame → Except Err (Nat × Nat)
  | Frame.arr a => Except.ok (a.h, a.w)
  | Frame.pil p => Except.ok (p.height, p.width)
  | Frame.obj _ => Except.error Err.typeError

/-- The pixel content of a frame, read as y x ch (zero for opaque
objects, which have no pixel content). -/
def frameVal : Frame → Nat → Nat → Nat → ℚ
  | Frame.arr a => a.data
  | Frame.pil p => p.px
  | Frame.obj _ => fun _ _ _ => 0

/-- The frame is one of the two supported representations and has height
h0, width w0 and cn channels. -/
def frameOkDims (cn h0 w0 : Nat) : Frame → Prop
  | Frame.arr a => a.h = h0 ∧ a.w = w0 ∧ a.c = cn
  | Frame.pil p => p.height = h0 ∧ p.width = w0 ∧ p.channels = cn
  | Frame.obj _ => False

/-- Every frame of the clip is an array. -/
def allArr (clip : List Frame) : Bool :=
  clip.all fun f => match f with
    | Frame.arr _ => true
    | _ => false

/-- Every frame of the clip is a PIL image. -/
def allPil (clip : List Frame) : Bool :=
  clip.all fun f => match f with
    | Frame.pil _ => true
    | _ => false

/-- The length of the resulting clip, when the call succeeded. -/
def lenOf : Except Err (List Frame) → Option Nat
  | Except.ok l => Option.some l.length
  | Except.error _ => Option.none

/-- A python for loop building a list, aborting at the first exception
(list comprehensions and the conversion loop of ToTensor). -/
def listMapM {α β : Type} (m : α → Except Err β) : List α → Except Err (List β)
  | [] => Except.ok []
  | a :: as =>
    match m a with
    | Except.error e => Except.error e
    | Except.ok b =>
      match listMapM m as with
      | Except.error e => Except.error e
      | Except.ok bs => Except.ok (b :: bs)

/-- A transform: takes a clip and the global random generator, returns
either the new clip or a raised error, together with the generator state
(which persists even when an error propagates). -/
def Transform : Type :=
  List Frame → RNG → Except Err (List Frame) × RNG

/-- Compose.__call__: fold the transforms over the clip in list order;
an error raised by a transform aborts the loop and propagates. -/
def Compose.call : List Transform → List Frame → RNG → Except Err (List Frame) × RNG
  | [], clip, g => (Except.ok clip, g)
  | t :: ts, clip, g =>
    match t clip g with
    | (Except.ok c2, g2) => Compose.call ts c2 g2
    | (Except.error e, g2) => (Except.error e, g2)

/-- Written from the wording of the spec, for comparison with Compose.call:
the composite transform applying A and then B to the result of A,
propagating an error of A unchanged. -/
def specComposite (A B : Transform) : Transform := fun clip g =>
  match A clip g with
  | (Except.ok c2, g2) => B c2 g2
  | (Except.error e, g2) => (Except.error e, g2)

/-- The output of ToTensor: a dense 4-dimensional tensor with axes
(channel, time, height, width). -/
structure Tensor4 : Type where
  c : Nat
  t : Nat
  h : Nat
  w : Nat
  data : Nat → Nat → Nat → Nat → ℚ

/-- The shape retrieval on clip[0] in ToTensor.__call__: for an array, the
channel count is asserted to equal channel_nb; for a PIL image the size
attribute gives (w, h); otherwise TypeError. -/
def ToTensor.firstShape (channel_nb : Nat) : Frame → Except Err (Nat × Nat)
  | Frame.arr a =>
    if a.c = channel_nb then Except.ok (a.h, a.w) else Except.error Err.assertionError
  | Frame.pil p => Except.ok (p.height, p.width)
  | Frame.obj _ => Except.error Err.typeError

/-- ToTensor.convert_img: transpose an (H, W, C) array with axes (2, 0, 1)
into (C, H, W) order; the result is an index function i j k. -/
def ToTensor.convert_img (a : NDArray) : Nat → Nat → Nat → ℚ :=
  fun i j k => a.data j k i

/-- The assignment np_clip[:, t, :, :] = img[:, :, ::-1] for one frame,
where img is the transposed (C, H, W) array, so the reversed axis is the
width axis.  numpy broadcasting lets a source axis of size one be
replicated; any other shape disagreement raises ValueError. -/
def ToTensor.assignSlice (channel_nb h0 w0 : Nat) (a : NDArray) :
    Except Err (Nat → Nat → Nat → ℚ) :=
  if (a.c = channel_nb ∨ a.c = 1) ∧ (a.h = h0 ∨ a.h = 1) ∧ (a.w = w0 ∨ a.w = 1) then
    Except.ok fun ch y x =>
      ToTensor.convert_img a (if a.c = 1 then 0 else ch) (if a.h = 1 then 0 else y)
        (a.w - 1 - (if a.w = 1 then 0 else x))
  else Except.error Err.valueError

/-- One iteration of the conversion loop of ToTensor.__call__: obtain the
frame as an array, then write its transposed, width-reversed content into
the time slice of the output buffer. -/
def ToTensor.convertFrame (channel_nb h0 w0 : Nat) (f : Frame) :
    Except Err (Nat → Nat → Nat → ℚ) :=
  match frameToArray f with
  | Except.error e => Except.error e
  | Except.ok a => ToTensor.assignSlice channel_nb h0 w0 a

/-- ToTensor.__call__: read the shape from clip[0] (IndexError on an empty
clip), run the conversion loop, and divide the filled zero-initialised
buffer of shape (channel_nb, T, h, w) by 255. -/
def ToTensor.call (channel_nb : Nat) (clip : List Frame) : Except Err Tensor4 :=
  match clip with
  | [] => Except.error Err.indexError
  | f0 :: _ =>
    match ToTensor.firstShape channel_nb f0 with
    | Except.error e => Except.error e
    | Except.ok (h0, w0) =>
      match listMapM (ToTensor.convertFrame channel_nb h0 w0) clip with
      | Except.error e => Except.error e
      | Except.ok slices =>
        Except.ok
          { c := channel_nb, t := clip.length, h := h0, w := w0,
            data := fun ch ti y x =>
              if ch < channel_nb ∧ ti < clip.length ∧ y < h0 ∧ x < w0 then
                slices.getD ti (fun _ _ _ => 0) ch y x / 255
              else 0 }

/-- np.fliplr: mirror an array along its second (width) axis. -/
def fliplrArr (a : NDArray) : NDArray :=
  { h := a.h, w := a.w, c := a.c,
    data := fun y x ch => a.data y (a.w - 1 - x) ch }

/-- img.transpose(PIL.Image.FLIP_LEFT_RIGHT): mirror a PIL image
horizontally. -/
def pilFlip (p : PILImage) : PILImage :=
  { width := p.width, height := p.height, channels := p.channels,
    px := fun y x ch => p.px y (p.width - 1 - x) ch }

/-- The left-right mirror of a frame, preserving its representation. -/
def mirrorFrame : Frame → Frame
  | Frame.arr a => Frame.arr (fliplrArr a)
  | Frame.pil p => Frame.pil (pilFlip p)
  | Frame.obj t => Frame.obj t

/-- np.fliplr applied to one list element in the array branch of
RandomHorizontalFlip: np.fliplr converts its argument with np.asarray, so
a PIL image is flipped as an array; any other object yields a
less-than-2-dimensional array and np.fliplr raises ValueError. -/
def RandomHorizontalFlip.flipArr : Frame → Except Err Frame
  | Frame.arr a => Except.ok (Frame.arr (fliplrArr a))
  | Frame.pil p => Except.ok (Frame.arr (fliplrArr (pilToArray p)))
  | Frame.obj _ => Except.error Err.valueError

/-- img.transpose(PIL.Image.FLIP_LEFT_RIGHT) applied to one list element
in the PIL branch of RandomHorizontalFlip: an ndarray has a transpose
method but rejects the axis argument (ValueError); any other object has no
transpose method (AttributeError). -/
def RandomHorizontalFlip.flipPil : Frame → Except Err Frame
  | Frame.pil p => Except.ok (Frame.pil (pilFlip p))
  | Frame.arr _ => Except.error Err.valueError
  | Frame.obj _ => Except.error Err.attributeError

/-- RandomHorizontalFlip.__call__: draw the coin first (the draw always
consumes randomness); only in the flip branch inspect clip[0] (IndexError
on an empty clip, TypeError on an unsupported representation) and mirror
every frame; otherwise return the clip unchanged. -/
def RandomHorizontalFlip.call (clip : List Frame) (g : RNG) :
    Except Err (List Frame) × RNG :=
  if g.coinVal then
    match clip with
    | [] => (Except.error Err.indexError, g.advance)
    | f0 :: _ =>
      match f0 with
      | Frame.arr _ => (listMapM RandomHorizontalFlip.flipArr clip, g.advance)
      | Frame.pil _ => (listMapM RandomHorizontalFlip.flipPil clip, g.advance)
      | Frame.obj _ => (Except.error Err.typeError, g.advance)
  else (Except.ok clip, g.advance)

/-- cv2.INTER_NEAREST. -/
def INTER_NEAREST : Nat := 0

/-- cv2.INTER_LINEAR. -/
def INTER_LINEAR : Nat := 1

/-- PIL.Image.NEAREST. -/
def PIL_NEAREST : Nat := 0

/-- PIL.Image.BILINEAR. -/
def PIL_BILINEAR : Nat := 2

/-- The array branch of Scale.__call__: cv2.resize every list element with
the chosen interpolation flag; cv2.resize rejects non-array arguments. -/
def Scale.arrBranch (cvResize : NDArray → Nat × Nat → Nat → NDArray)
    (size : Nat × Nat) (inter : Nat) : List Frame → Except Err (List Frame) :=
  listMapM fun f => match f with
    | Frame.arr a => Except.ok (Frame.arr (cvResize a size inter))
    | Frame.pil _ => Except.error Err.typeError
    | Frame.obj _ => Except.error Err.typeError

/-- The PIL branch of Scale.__call__: img.resize every list element with
the chosen filter; objects without a resize method raise
AttributeError. -/
def Scale.pilBranch (pilResize : PILImage → Nat × Nat → Nat → PILImage)
    (size : Nat × Nat) (inter : Nat) : List Frame → Except Err (List Frame) :=
  listMapM fun f => match f with
    | Frame.pil p => Except.ok (Frame.pil (pilResize p size inter))
    | Frame.arr _ => Except.error Err.attributeError
    | Frame.obj _ => Except.error Err.attributeError

/-- Scale.__call__, parametric in the external resize primitives (cv2 and
PIL resizing are delegated library calls, not reimplemented here): dispatch
on the representation of clip[0] (IndexError on an empty clip), select the
interpolation flag from the interpolation string, and resize every
frame. -/
def Scale.call (cvResize : NDArray → Nat × Nat → Nat → NDArray)
    (pilResize : PILImage → Nat × Nat → Nat → PILImage)
    (size : Nat × Nat) (interpolation : String) (clip : List Frame) :
    Except Err (List Frame) :=
  match clip with
  | [] => Except.error Err.indexError
  | Frame.arr _ :: _ =>
    Scale.arrBranch cvResize size
      (if interpolation = "bilinear" then INTER_LINEAR else INTER_NEAREST) clip
  | Frame.pil _ :: _ =>
    Scale.pilBranch pilResize size
      (if interpolation = "bilinear" then PIL_NEAREST else PIL_BILINEAR) clip
  | Frame.obj _ :: _ => Except.error Err.typeError

/-- The numpy slice img[y1 : y1 + h, x1 : x1 + w, :]: python slicing clamps
the bounds to the array extent. -/
def npSlice (a : NDArray) (y1 h x1 w : Nat) : NDArray :=
  { h := min (y1 + h) a.h - min y1 a.h,
    w := min (x1 + w) a.w - min x1 a.w,
    c := a.c,
    data := fun y x ch => a.data (min y1 a.h + y) (min x1 a.w + x) ch }

/-- img.crop((x1, y1, x2, y2)) on a PIL image: the result always has the
exact box size, regions outside the source extent are filled with zeros. -/
def pilCropBox (p : PILImage) (x1 y1 x2 y2 : Nat) : PILImage :=
  { width := x2 - x1, height := y2 - y1, channels := p.channels,
    px := fun y x ch =>
      if y1 + y < p.height ∧ x1 + x < p.width then p.px (y1 + y) (x1 + x) ch else 0 }

/-- Cropping one frame at offset (x1, y1) with target size (h, w),
preserving the representation. -/
def cropFrame (x1 y1 h w : Nat) : Frame → Frame
  | Frame.arr a => Frame.arr (npSlice a y1 h x1 w)
  | Frame.pil p => Frame.pil (pilCropBox p x1 y1 (x1 + w) (y1 + h))
  | Frame.obj t => Frame.obj t

/-- The array branch of the cropping loop: slicing a non-array raises
TypeError (no slice subscript). -/
def RandomCrop.cropArr (x1 y1 h w : Nat) : Frame → Except Err Frame
  | Frame.arr a => Except.ok (Frame.arr (npSlice a y1 h x1 w))
  | Frame.pil _ => Except.error Err.typeError
  | Frame.obj _ => Except.error Err.typeError

/-- The PIL branch of the cropping loop: objects without a crop method
raise AttributeError. -/
def RandomCrop.cropPil (x1 y1 h w : Nat) : Frame → Except Err Frame
  | Frame.pil p => Except.ok (Frame.pil (pilCropBox p x1 y1 (x1 + w) (y1 + h)))
  | Frame.arr _ => Except.error Err.attributeError
  | Frame.obj _ => Except.error Err.attributeError

/-- RandomCrop.__call__: read the frame size from clip[0] (IndexError on an
empty clip, TypeError on an unsupported representation), validate the
requested size BEFORE drawing any randomness (ValueError, generator
untouched), then draw x1 = randint(0, im_w - w) and y1 =
randint(0, im_h - h) and crop every frame at the same offset. -/
def RandomCrop.call (size : Nat × Nat) (clip : List Frame) (g : RNG) :
    Except Err (List Frame) × RNG :=
  let (h, w) := size
  match clip with
  | [] => (Except.error Err.indexError, g)
  | f0 :: _ =>
    match frameSize f0 with
    | Except.error e => (Except.error e, g)
    | Except.ok (im_h, im_w) =>
      if im_w < w ∨ im_h < h then (Except.error Err.valueError, g)
      else
        let (x1, g1) := g.randint 0 (im_w - w)
        let (y1, g2) := g1.randint 0 (im_h - h)
        match f0 with
        | Frame.arr _ => (listMapM (RandomCrop.cropArr x1 y1 h w) clip, g2)
        | Frame.pil _ => (listMapM (RandomCrop.cropPil x1 y1 h w) clip, g2)
        | Frame.obj _ => (Except.error Err.typeError, g2)

/-- The shape (c, t, h, w) of the resulting tensor, when the call
succeeded. -/
def tensorShape : Except Err Tensor4 → Option (Nat × Nat × Nat × Nat)
  | Except.ok tsr => Option.some (tsr.c, tsr.t, tsr.h, tsr.w)
  | Except.error _ => Option.none

/-- One entry of the resulting tensor, when the call succeeded. -/
def tensorAt (r : Except Err Tensor4) (ch ti y x : Nat) : Option ℚ :=
  match r with
  | Except.ok tsr => Option.some (tsr.data ch ti y x)
  | Except.error _ => Option.none

/-- A concrete 1 by 1 array frame with three channels holding 10, 20, 30. -/
def exA3 : NDArray :=
  { h := 1, w := 1, c := 3,
    data := fun _ _ ch => if ch = 0 then 10 else if ch = 1 then 20 else 30 }

/-- A concrete 1 by 1 array frame with four channels. -/
def exA4 : NDArray :=
  { h := 1, w := 1, c := 4, data := fun _ _ _ => 0 }

/-- A concrete 1 by 1 PIL frame with three channels. -/
def exP1 : PILImage :=
  { width := 1, height := 1, channels := 3, px := fun _ _ _ => 0 }

/-- A concrete 2 by 2 array frame with three channels. -/
def exB : NDArray :=
  { h := 2, w := 2, c := 3, data := fun _ _ _ => 7 }

/-- A generator stream of zeros: the coin draw selects the flip branch and
randint draws yield 0. -/
def gZero : RNG := { seq := fun _ => 0, pos := 0 }

/-- A generator stream of ones: the coin draw selects the no-flip branch. -/
def gOne : RNG := { seq := fun _ => 1, pos := 0 }

/-- A concrete resize primitive standing in for cv2.resize. -/
def idResizeArr : NDArray → Nat × Nat → Nat → NDArray := fun a _ _ => a

/-- A concrete resize primitive standing in for PIL resize. -/
def idResizePil : PILImage → Nat × Nat → Nat → PILImage := fun p _ _ => p

/-- A python loop building a list succeeds with the pointwise images when
every element maps successfully. -/
lemma listMapM_map {α β : Type} (m : α → Except Err β) (k : α → β) :
    ∀ l : List α, (∀ a ∈ l, m a = Except.ok (k a)) →
      listMapM m l = Except.ok (l.map k) := by
  intro l
  induction l with
  | nil => intro _; rfl
  | cons a as ih =>
    intro hall
    have ha := hall a (List.mem_cons_self a as)
    have has := ih fun b hb => hall b (List.mem_cons_of_mem a hb)
    simp [listMapM, ha, has]

/-- A successful python loop preserves the list length. -/
lemma listMapM_length {α β : Type} (m : α → Except Err β) :
    ∀ (l : List α) (bs : List β), listMapM m l = Except.ok bs →
      bs.length = l.length := by
  intro l
  induction l with
  | nil =>
    intro bs hb
    simp [listMapM] at hb
    simp [← hb]
  | cons a as ih =>
    intro bs hb
    cases hm : m a with
    | error e => simp [listMapM, hm] at hb
    | ok b =>
      cases hr : listMapM m as with
      | error e => simp [listMapM, hm, hr] at hb
      | ok bs2 =>
        simp [listMapM, hm, hr] at hb
        simp [← hb, ih bs2 hr]

/-- An error of a python loop comes from some element of the list. -/
lemma listMapM_error {α β : Type} (m : α → Except Err β) :
    ∀ (l : List α) (e : Err), listMapM m l = Except.error e →
      ∃ a ∈ l, m a = Except.error e := by
  intro l
  induction l with
  | nil => intro e he; simp [listMapM] at he
  | cons a as ih =>
    intro e he
    cases hm : m a with
    | error e2 =>
      simp [listMapM, hm] at he
      exact ⟨a, List.mem_cons_self a as, by rw [hm, he]⟩
    | ok b =>
      cases hr : listMapM m as with
      | error e2 =>
        simp [listMapM, hm, hr] at he
        obtain ⟨a2, ha2, hma⟩ := ih e2 hr
        exact ⟨a2, List.mem_cons_of_mem a ha2, by rw [hma, he]⟩
      | ok bs => simp [listMapM, hm, hr] at he

/-- The length of the result of a python loop, phrased through lenOf. -/
lemma lenOf_listMapM (m : Frame → Except Err Frame) (l : List Frame) :
    lenOf (listMapM m l) = Option.none
    ∨ lenOf (listMapM m l) = Option.some l.length := by
  cases hl : listMapM m l with
  | error e => left; simp [lenOf]
  | ok bs => right; simp [lenOf, listMapM_length m l bs hl]

/-- C7: Compose applied to a clip folds its transforms left-to-right:
Compose of the empty transform list returns the clip (and generator)
unchanged, and Compose [A, B] applied to a clip equals the composite
transform that applies A and then B to the result of A. -/
theorem compose_fold_spec :
    (∀ (clip : List Frame) (g : RNG), Compose.call [] clip g = (Except.ok clip, g))
    ∧ (∀ (A B : Transform) (clip : List Frame) (g : RNG),
        Compose.call [A, B] clip g = specComposite A B clip g) := by
  constructor
  · intro clip g; rfl
  · intro A B clip g
    cases hA : A clip g with
    | mk res g2 =>
      cases res with
      | ok c2 =>
        cases hB : B c2 g2 with
        | mk res2 g3 =>
          cases res2 <;> simp [Compose.call, specComposite, hA, hB]
      | error e => simp [Compose.call, specComposite, hA]

/-- C10 (amended): ToTensor, Scale and RandomCrop each fail with an
IndexError on the empty clip, because each reads the first frame first;
RandomHorizontalFlip draws its coin before touching the clip, so on the
empty clip it returns the empty clip unchanged in the no-flip branch and
fails with an IndexError in the flip branch; Compose of no transforms
returns the empty clip unchanged. -/
theorem empty_clip_behaviour :
    (∀ cn, ToTensor.call cn [] = Except.error Err.indexError)
    ∧ (∀ ra rp sz itp, Scale.call ra rp sz itp [] = Except.error Err.indexError)
    ∧ (∀ (sz : Nat × Nat) (g : RNG),
        RandomCrop.call sz [] g = (Except.error Err.indexError, g))
    ∧ (∀ g : RNG, RandomHorizontalFlip.call [] g =
        ((if g.coinVal then Except.error Err.indexError else Except.ok []), g.advance))
    ∧ (∀ g : RNG, Compose.call [] [] g = (Except.ok [], g)) := by
  refine ⟨fun cn => rfl, fun ra rp sz itp => rfl, ?_, ?_, fun g => rfl⟩
  · intro sz g
    obtain ⟨h, w⟩ := sz
    rfl
  · intro g
    by_cases hc : g.coinVal <;> simp [RandomHorizontalFlip.call, hc]

/-- C10 counterexample: RandomHorizontalFlip is a transform that does
produce an empty output clip from the empty input clip, when the draw
selects the no-flip branch. -/
theorem flip_empty_clip_cex :
    (RandomHorizontalFlip.call [] gOne).1 = Except.ok [] := rfl

/-- C4 (amended): on a clip whose first frame is an unsupported object,
RandomHorizontalFlip raises TypeError exactly when the single random draw
selects the flip branch; in the no-flip branch the clip is returned
unchanged without any representation check. -/
theorem flip_typeerror_iff_flip_branch (t : Nat) (rest : List Frame) (g : RNG) :
    RandomHorizontalFlip.call (Frame.obj t :: rest) g =
      ((if g.coinVal then Except.error Err.typeError
        else Except.ok (Frame.obj t :: rest)), g.advance) := by
  by_cases hc : g.coinVal <;> simp [RandomHorizontalFlip.call, hc]

/-- C4 counterexample: with the global generator forcing the no-flip
branch, a clip whose first frame is an unsupported object is returned
unchanged and no TypeError is raised, contradicting raised on every such
invocation regardless of the draw. -/
theorem flip_typeerror_cex :
    (RandomHorizontalFlip.call [Frame.obj 0] gOne).1 = Except.ok [Frame.obj 0] := rfl

/-- C3: the interpolation-mode mapping of Scale is asymmetric between the
two representations: on an array-first clip, interpolation "bilinear"
selects cv2.INTER_LINEAR and any other string selects cv2.INTER_NEAREST;
on a PIL-first clip, "bilinear" selects PIL.Image.NEAREST and any other
string selects PIL.Image.BILINEAR. -/
theorem scale_interpolation_asymmetry :
    (∀ ra rp sz (a : NDArray) rest,
        Scale.call ra rp sz "bilinear" (Frame.arr a :: rest)
          = Scale.arrBranch ra sz INTER_LINEAR (Frame.arr a :: rest))
    ∧ (∀ ra rp sz itp (a : NDArray) rest, itp ≠ "bilinear" →
        Scale.call ra rp sz itp (Frame.arr a :: rest)
          = Scale.arrBranch ra sz INTER_NEAREST (Frame.arr a :: rest))
    ∧ (∀ ra rp sz (p : PILImage) rest,
        Scale.call ra rp sz "bilinear" (Frame.pil p :: rest)
          = Scale.pilBranch rp sz PIL_NEAREST (Frame.pil p :: rest))
    ∧ (∀ ra rp sz itp (p : PILImage) rest, itp ≠ "bilinear" →
        Scale.call ra rp sz itp (Frame.pil p :: rest)
          = Scale.pilBranch rp sz PIL_BILINEAR (Frame.pil p :: rest))
    ∧ INTER_LINEAR ≠ INTER_NEAREST ∧ PIL_NEAREST ≠ PIL_BILINEAR := by
  refine ⟨fun ra rp sz a rest => rfl, ?_, fun ra rp sz p rest => rfl, ?_,
    by decide, by decide⟩
  · intro ra rp sz itp a rest hitp
    simp [Scale.call, hitp]
  · intro ra rp sz itp p rest hitp
    simp [Scale.call, hitp]

/-- C3 witness: the asymmetry theorem applied at the concrete
interpolation string "nearest" on a concrete array-first clip. -/
theorem scale_interpolation_asymmetry_witness :
    Scale.call idResizeArr idResizePil (2, 2) "nearest" [Frame.arr exA3]
      = Scale.arrBranch idResizeArr (2, 2) INTER_NEAREST [Frame.arr exA3] :=
  scale_interpolation_asymmetry.2.1 idResizeArr idResizePil (2, 2) "nearest" exA3 []
    (by decide)

/-- In an all-array clip every member is an array frame. -/
lemma allArr_forall {clip : List Frame} (hall : allArr clip = true) :
    ∀ f ∈ clip, ∃ a, f = Frame.arr a := by
  intro f hf
  have hmem := (List.all_eq_true.mp hall) f hf
  cases f with
  | arr a => exact ⟨a, rfl⟩
  | pil p => exact Bool.noConfusion hmem
  | obj t => exact Bool.noConfusion hmem

/-- In an all-PIL clip every member is a PIL frame. -/
lemma allPil_forall {clip : List Frame} (hall : allPil clip = true) :
    ∀ f ∈ clip, ∃ p, f = Frame.pil p := by
  intro f hf
  have hmem := (List.all_eq_true.mp hall) f hf
  cases f with
  | arr a => exact Bool.noConfusion hmem
  | pil p => exact ⟨p, rfl⟩
  | obj t => exact Bool.noConfusion hmem

/-- C6: RandomHorizontalFlip makes exactly one random draw per invocation
(the generator advances by one position in every branch), shared across
all frames: in the flip branch every frame of the output is the
left-right mirror of the corresponding input frame, in the same
representation class; otherwise the clip is returned unchanged. -/
theorem flip_single_draw_spec (clip : List Frame) (g : RNG) (hne : clip ≠ [])
    (huni : allArr clip = true ∨ allPil clip = true) :
    RandomHorizontalFlip.call clip g =
      ((if g.coinVal then Except.ok (clip.map mirrorFrame) else Except.ok clip),
        g.advance) := by
  by_cases hc : g.coinVal
  · cases clip with
    | nil => exact absurd rfl hne
    | cons f0 rest =>
      cases huni with
      | inl hall =>
        obtain ⟨a0, ha0⟩ := allArr_forall hall f0 (List.mem_cons_self f0 rest)
        subst ha0
        have hmap : listMapM RandomHorizontalFlip.flipArr (Frame.arr a0 :: rest)
            = Except.ok ((Frame.arr a0 :: rest).map mirrorFrame) := by
          apply listMapM_map
          intro f hf
          obtain ⟨a, ha⟩ := allArr_forall hall f hf
          subst ha
          rfl
        simp [RandomHorizontalFlip.call, hc, hmap]
      | inr hall =>
        obtain ⟨p0, hp0⟩ := allPil_forall hall f0 (List.mem_cons_self f0 rest)
        subst hp0
        have hmap : listMapM RandomHorizontalFlip.flipPil (Frame.pil p0 :: rest)
            = Except.ok ((Frame.pil p0 :: rest).map mirrorFrame) := by
          apply listMapM_map
          intro f hf
          obtain ⟨p, hp⟩ := allPil_forall hall f hf
          subst hp
          rfl
        simp [RandomHorizontalFlip.call, hc, hmap]
  · simp [RandomHorizontalFlip.call, hc]

/-- C6 witness: the theorem applied to a concrete one-frame array clip
with the generator forcing the flip branch. -/
theorem flip_single_draw_spec_witness :
    RandomHorizontalFlip.call [Frame.arr exB] gZero
      = (Except.ok ([Frame.arr exB].map mirrorFrame), gZero.advance) :=
  flip_single_draw_spec [Frame.arr exB] gZero (by simp) (Or.inl rfl)

/-- C9: on success, RandomHorizontalFlip, Scale and RandomCrop each return
an output clip with the same number of frames as the input clip (lenOf is
none exactly when the call raised an error). -/
theorem transforms_preserve_length :
    (∀ (clip : List Frame) (g : RNG),
        lenOf (RandomHorizontalFlip.call clip g).1 = Option.none
        ∨ lenOf (RandomHorizontalFlip.call clip g).1 = Option.some clip.length)
    ∧ (∀ ra rp sz itp (clip : List Frame),
        lenOf (Scale.call ra rp sz itp clip) = Option.none
        ∨ lenOf (Scale.call ra rp sz itp clip) = Option.some clip.length)
    ∧ (∀ (sz : Nat × Nat) (clip : List Frame) (g : RNG),
        lenOf (RandomCrop.call sz clip g).1 = Option.none
        ∨ lenOf (RandomCrop.call sz clip g).1 = Option.some clip.length) := by
  refine ⟨?_, ?_, ?_⟩
  · intro clip g
    by_cases hc : g.coinVal
    · cases clip with
      | nil => left; simp [RandomHorizontalFlip.call, hc, lenOf]
      | cons f0 rest =>
        cases f0 with
        | arr a =>
          simpa [RandomHorizontalFlip.call, hc] using
            lenOf_listMapM RandomHorizontalFlip.flipArr (Frame.arr a :: rest)
        | pil p =>
          simpa [RandomHorizontalFlip.call, hc] using
            lenOf_listMapM RandomHorizontalFlip.flipPil (Frame.pil p :: rest)
        | obj t => left; simp [RandomHorizontalFlip.call, hc, lenOf]
    · right; simp [RandomHorizontalFlip.call, hc, lenOf]
  · intro ra rp sz itp clip
    cases clip with
    | nil => left; rfl
    | cons f0 rest =>
      cases f0 with
      | arr a =>
        simpa [Scale.call, Scale.arrBranch] using
          lenOf_listMapM _ (Frame.arr a :: rest)
      | pil p =>
        simpa [Scale.call, Scale.pilBranch] using
          lenOf_listMapM _ (Frame.pil p :: rest)
      | obj t => left; rfl
  · intro sz clip g
    obtain ⟨h, w⟩ := sz
    cases clip with
    | nil => left; rfl
    | cons f0 rest =>
      cases f0 with
      | arr a =>
        by_cases hv : a.w < w ∨ a.h < h
        · left; simp [RandomCrop.call, frameSize, hv, lenOf]
        · simpa [RandomCrop.call, frameSize, hv, RNG.randint] using
            lenOf_listMapM _ (Frame.arr a :: rest)
      | pil p =>
        by_cases hv : p.width < w ∨ p.height < h
        · left; simp [RandomCrop.call, frameSize, hv, lenOf]
        · simpa [RandomCrop.call, frameSize, hv, RNG.randint] using
            lenOf_listMapM _ (Frame.pil p :: rest)
      | obj t => left; rfl

/-- Errors of the array-branch cropping loop are always TypeError. -/
lemma cropArr_error (x1 y1 h w : Nat) (f : Frame) (e : Err)
    (he : RandomCrop.cropArr x1 y1 h w f = Except.error e) : e = Err.typeError := by
  cases f with
  | arr a => exact absurd he (by simp [RandomCrop.cropArr])
  | pil p =>
    simp [RandomCrop.cropArr] at he
    exact he.symm
  | obj t =>
    simp [RandomCrop.cropArr] at he
    exact he.symm

/-- Errors of the PIL-branch cropping loop are always AttributeError. -/
lemma cropPil_error (x1 y1 h w : Nat) (f : Frame) (e : Err)
    (he : RandomCrop.cropPil x1 y1 h w f = Except.error e) : e = Err.attributeError := by
  cases f with
  | pil p => exact absurd he (by simp [RandomCrop.cropPil])
  | arr a =>
    simp [RandomCrop.cropPil] at he
    exact he.symm
  | obj t =>
    simp [RandomCrop.cropPil] at he
    exact he.symm

/-- C5: RandomCrop raises ValueError exactly when the requested height
exceeds the source frame height or the requested width exceeds the source
frame width, and in that case the error is raised before any random draw:
the global generator is returned unchanged. -/
theorem randomCrop_valueError_iff (h w im_h im_w : Nat) (f0 : Frame)
    (rest : List Frame) (g : RNG)
    (hdims : frameSize f0 = Except.ok (im_h, im_w)) :
    ((RandomCrop.call (h, w) (f0 :: rest) g).1 = Except.error Err.valueError
        ↔ im_w < w ∨ im_h < h)
    ∧ (im_w < w ∨ im_h < h →
        RandomCrop.call (h, w) (f0 :: rest) g = (Except.error Err.valueError, g)) := by
  have hbad : im_w < w ∨ im_h < h →
      RandomCrop.call (h, w) (f0 :: rest) g = (Except.error Err.valueError, g) := by
    intro hv
    simp [RandomCrop.call, hdims, hv]
  refine ⟨⟨?_, fun hv => by rw [hbad hv]⟩, hbad⟩
  intro herr
  by_contra hv
  cases f0 with
  | arr a =>
    have ha : a.h = im_h ∧ a.w = im_w := by
      simpa [frameSize, Prod.ext_iff] using hdims
    simp only [RandomCrop.call, frameSize, ha.1, ha.2, if_neg hv, RNG.randint] at herr
    obtain ⟨f, _, hfe⟩ := listMapM_error _ _ _ herr
    exact absurd (cropArr_error _ _ _ _ _ _ hfe) (by decide)
  | pil p =>
    have hp : p.height = im_h ∧ p.width = im_w := by
      simpa [frameSize, Prod.ext_iff] using hdims
    simp only [RandomCrop.call, frameSize, hp.1, hp.2, if_neg hv, RNG.randint] at herr
    obtain ⟨f, _, hfe⟩ := listMapM_error _ _ _ herr
    exact absurd (cropPil_error _ _ _ _ _ _ hfe) (by decide)
  | obj t => simp [frameSize] at hdims

/-- C5 witness: the theorem applied at a concrete 2 by 2 clip with a
requested height of 3: ValueError, generator untouched. -/
theorem randomCrop_valueError_iff_witness :
    RandomCrop.call (3, 1) [Frame.arr exB] gZero = (Except.error Err.valueError, gZero) :=
  (randomCrop_valueError_iff 3 1 2 2 (Frame.arr exB) [] gZero rfl).2
    (Or.inr (by norm_num))

/-- C1: for a valid RandomCrop invocation on a uniform non-empty clip
whose frames have size (im_h, im_w), with requested h and w within bounds,
exactly one offset pair is drawn: x1 from the next stream element reduced
into the inclusive range up to im_w - w, y1 from the following element
reduced into the range up to im_h - h (the generator advances by exactly
two positions); the identical offset is applied to every frame and every
output frame has size exactly (h, w). -/
theorem randomCrop_valid_offsets (h w im_h im_w : Nat) (f0 : Frame)
    (rest : List Frame) (g : RNG)
    (hh : h ≤ im_h) (hw : w ≤ im_w)
    (huni : allArr (f0 :: rest) = true ∨ allPil (f0 :: rest) = true)
    (hall : ∀ f ∈ f0 :: rest, frameSize f = Except.ok (im_h, im_w)) :
    RandomCrop.call (h, w) (f0 :: rest) g
      = (Except.ok ((f0 :: rest).map
            (cropFrame (g.seq g.pos % (im_w - w + 1))
              (g.seq (g.pos + 1) % (im_h - h + 1)) h w)),
          g.advance.advance)
    ∧ g.seq g.pos % (im_w - w + 1) ≤ im_w - w
    ∧ g.seq (g.pos + 1) % (im_h - h + 1) ≤ im_h - h
    ∧ ∀ f ∈ f0 :: rest,
        frameSize (cropFrame (g.seq g.pos % (im_w - w + 1))
          (g.seq (g.pos + 1) % (im_h - h + 1)) h w f) = Except.ok (h, w) := by
  have hx1 : g.seq g.pos % (im_w - w + 1) ≤ im_w - w :=
    Nat.lt_succ_iff.mp (Nat.mod_lt _ (Nat.succ_pos _))
  have hy1 : g.seq (g.pos + 1) % (im_h - h + 1) ≤ im_h - h :=
    Nat.lt_succ_iff.mp (Nat.mod_lt _ (Nat.succ_pos _))
  refine ⟨?_, hx1, hy1, ?_⟩
  · cases huni with
    | inl huni2 =>
      obtain ⟨a0, ha0⟩ := allArr_forall huni2 f0 (List.mem_cons_self f0 rest)
      subst ha0
      obtain ⟨ha1, ha2⟩ : a0.h = im_h ∧ a0.w = im_w := by
        simpa [frameSize, Prod.ext_iff] using hall _ (List.mem_cons_self _ rest)
      subst ha1
      subst ha2
      have hv : ¬(a0.w < w ∨ a0.h < h) := by omega
      have hmap : listMapM
          (RandomCrop.cropArr (g.seq g.pos % (a0.w - w + 1))
            (g.seq (g.pos + 1) % (a0.h - h + 1)) h w) (Frame.arr a0 :: rest)
          = Except.ok ((Frame.arr a0 :: rest).map
              (cropFrame (g.seq g.pos % (a0.w - w + 1))
                (g.seq (g.pos + 1) % (a0.h - h + 1)) h w)) := by
        apply listMapM_map
        intro f hf
        obtain ⟨a, ha⟩ := allArr_forall huni2 f hf
        subst ha
        rfl
      simp [RandomCrop.call, frameSize, hv, RNG.randint, RNG.advance, hmap]
    | inr huni2 =>
      obtain ⟨p0, hp0⟩ := allPil_forall huni2 f0 (List.mem_cons_self f0 rest)
      subst hp0
      obtain ⟨ha1, ha2⟩ : p0.height = im_h ∧ p0.width = im_w := by
        simpa [frameSize, Prod.ext_iff] using hall _ (List.mem_cons_self _ rest)
      subst ha1
      subst ha2
      have hv : ¬(p0.width < w ∨ p0.height < h) := by omega
      have hmap : listMapM
          (RandomCrop.cropPil (g.seq g.pos % (p0.width - w + 1))
            (g.seq (g.pos + 1) % (p0.height - h + 1)) h w) (Frame.pil p0 :: rest)
          = Except.ok ((Frame.pil p0 :: rest).map
              (cropFrame (g.seq g.pos % (p0.width - w + 1))
                (g.seq (g.pos + 1) % (p0.height - h + 1)) h w)) := by
        apply listMapM_map
        intro f hf
        obtain ⟨p, hp⟩ := allPil_forall huni2 f hf
        subst hp
        rfl
      simp [RandomCrop.call, frameSize, hv, RNG.randint, RNG.advance, hmap]
  · intro f hf
    have hfs := hall f hf
    cases f with
    | arr a =>
      obtain ⟨ha1, ha2⟩ : a.h = im_h ∧ a.w = im_w := by
        simpa [frameSize, Prod.ext_iff] using hfs
      simp only [cropFrame, frameSize, npSlice, Except.ok.injEq, Prod.mk.injEq]
      constructor <;> omega
    | pil p =>
      simp only [cropFrame, frameSize, pilCropBox, Except.ok.injEq, Prod.mk.injEq]
      constructor <;> omega
    | obj t => simp [frameSize] at hfs

/-- C1 witness: the theorem applied to a concrete one-frame 2 by 2 array
clip with target size (1, 1) and the all-zero generator stream, which
draws the offset pair (0, 0). -/
theorem randomCrop_valid_offsets_witness :
    RandomCrop.call (1, 1) [Frame.arr exB] gZero
      = (Except.ok ([Frame.arr exB].map (cropFrame 0 0 1 1)),
          gZero.advance.advance) :=
  (randomCrop_valid_offsets 1 1 2 2 (Frame.arr exB) [] gZero (by norm_num)
    (by norm_num) (Or.inl rfl)
    (by
      intro f hf
      simp only [List.mem_singleton] at hf
      subst hf
      rfl)).1

/-- The per-frame assignment succeeds on an array of the expected shape
and writes the width-reversed, channel-preserving content. -/
lemma assignSlice_ok (cn h0 w0 : Nat) (a : NDArray)
    (h1 : a.h = h0) (h2 : a.w = w0) (h3 : a.c = cn) :
    ∃ sl, ToTensor.assignSlice cn h0 w0 a = Except.ok sl
      ∧ ∀ ch y x, ch < cn → y < h0 → x < w0 →
          sl ch y x = a.data y (w0 - 1 - x) ch := by
  subst h1
  subst h2
  subst h3
  have hcond : (a.c = a.c ∨ a.c = 1) ∧ (a.h = a.h ∨ a.h = 1) ∧ (a.w = a.w ∨ a.w = 1) :=
    ⟨Or.inl rfl, Or.inl rfl, Or.inl rfl⟩
  refine ⟨fun ch y x => ToTensor.convert_img a (if a.c = 1 then 0 else ch)
      (if a.h = 1 then 0 else y) (a.w - 1 - (if a.w = 1 then 0 else x)), ?_, ?_⟩
  · unfold ToTensor.assignSlice
    rw [if_pos hcond]
  · intro ch y x hch hy hx
    have e1 : (if a.c = 1 then 0 else ch) = ch := by split <;> omega
    have e2 : (if a.h = 1 then 0 else y) = y := by split <;> omega
    have e3 : (if a.w = 1 then 0 else x) = x := by split <;> omega
    simp only [e1, e2, e3, ToTensor.convert_img]

/-- One loop iteration of ToTensor succeeds on a frame of the expected
shape, producing the width-reversed, channel-preserving slice. -/
lemma convertFrame_ok (cn h0 w0 : Nat) (f : Frame) (hf : frameOkDims cn h0 w0 f) :
    ∃ sl, ToTensor.convertFrame cn h0 w0 f = Except.ok sl
      ∧ ∀ ch y x, ch < cn → y < h0 → x < w0 →
          sl ch y x = frameVal f y (w0 - 1 - x) ch := by
  cases f with
  | arr a =>
    obtain ⟨h1, h2, h3⟩ := hf
    obtain ⟨sl, hsl, hval⟩ := assignSlice_ok cn h0 w0 a h1 h2 h3
    exact ⟨sl, hsl, hval⟩
  | pil p =>
    obtain ⟨h1, h2, h3⟩ := hf
    obtain ⟨sl, hsl, hval⟩ := assignSlice_ok cn h0 w0 (pilToArray p) h1 h2 h3
    exact ⟨sl, hsl, hval⟩
  | obj t => cases hf

/-- The whole conversion loop of ToTensor succeeds on a uniform clip of
the expected shape and fills each time slice pointwise. -/
lemma convertFrames_ok (cn h0 w0 : Nat) :
    ∀ clip : List Frame, (∀ f ∈ clip, frameOkDims cn h0 w0 f) →
      ∃ slices, listMapM (ToTensor.convertFrame cn h0 w0) clip = Except.ok slices
        ∧ slices.length = clip.length
        ∧ ∀ ti ch y x, ti < clip.length → ch < cn → y < h0 → x < w0 →
            slices.getD ti (fun _ _ _ => 0) ch y x
              = frameVal (clip.getD ti (Frame.obj 0)) y (w0 - 1 - x) ch := by
  intro clip
  induction clip with
  | nil =>
    intro _
    exact ⟨[], rfl, rfl, by intro ti ch y x hti; simp at hti⟩
  | cons f fs ih =>
    intro hall
    obtain ⟨sl, hsl, hslval⟩ := convertFrame_ok cn h0 w0 f (hall f (List.mem_cons_self f fs))
    obtain ⟨ss, hss, hlen, hval⟩ := ih fun f2 hf2 => hall f2 (List.mem_cons_of_mem f hf2)
    refine ⟨sl :: ss, ?_, by simp [hlen], ?_⟩
    · simp [listMapM, hsl, hss]
    · intro ti ch y x hti hch hy hx
      cases ti with
      | zero => simpa using hslval ch y x hch hy hx
      | succ ti2 =>
        simp only [List.getD_cons_succ]
        exact hval ti2 ch y x (by simpa using hti) hch hy hx

/-- C2 (amended): on a non-empty uniform clip of frames of shape
(h0, w0, cn), ToTensor returns a tensor of shape (cn, T, h0, w0) whose
entry at (c, t, y, x) is the value of frame t at row y, MIRRORED column
w0 - 1 - x, channel c (the width axis is reversed, the channel order is
preserved), divided by 255; with inputs in the range 0 to 255 every
output entry lies in the closed range 0 to 1. -/
theorem toTensor_pack_spec (cn h0 w0 : Nat) (clip : List Frame)
    (hne : clip ≠ [])
    (hdims : ∀ f ∈ clip, frameOkDims cn h0 w0 f)
    (hrange : ∀ f ∈ clip, ∀ y x ch, 0 ≤ frameVal f y x ch ∧ frameVal f y x ch ≤ 255) :
    tensorShape (ToTensor.call cn clip) = Option.some (cn, clip.length, h0, w0)
    ∧ (∀ ch ti y x, ch < cn → ti < clip.length → y < h0 → x < w0 →
        tensorAt (ToTensor.call cn clip) ch ti y x
          = Option.some (frameVal (clip.getD ti (Frame.obj 0)) y (w0 - 1 - x) ch / 255))
    ∧ (∀ ch ti y x q, tensorAt (ToTensor.call cn clip) ch ti y x = Option.some q →
        0 ≤ q ∧ q ≤ 1) := by
  cases clip with
  | nil => exact absurd rfl hne
  | cons f0 fs =>
    have hshape : ToTensor.firstShape cn f0 = Except.ok (h0, w0) := by
      have h0f := hdims f0 (List.mem_cons_self f0 fs)
      cases f0 with
      | arr a =>
        obtain ⟨h1, h2, h3⟩ := h0f
        simp [ToTensor.firstShape, h1, h2, h3]
      | pil p =>
        obtain ⟨h1, h2, h3⟩ := h0f
        simp [ToTensor.firstShape, h1, h2]
      | obj t => cases h0f
    obtain ⟨slices, hsl, hlen, hval⟩ := convertFrames_ok cn h0 w0 (f0 :: fs) hdims
    have hcall : ToTensor.call cn (f0 :: fs) = Except.ok
        { c := cn, t := (f0 :: fs).length, h := h0, w := w0,
          data := fun ch ti y x =>
            if ch < cn ∧ ti < (f0 :: fs).length ∧ y < h0 ∧ x < w0 then
              slices.getD ti (fun _ _ _ => 0) ch y x / 255
            else 0 } := by
      simp only [ToTensor.call, hshape, hsl]
    refine ⟨?_, ?_, ?_⟩
    · rw [hcall]
      rfl
    · intro ch ti y x hch hti hy hx
      rw [hcall]
      simp only [tensorAt]
      rw [if_pos ⟨hch, hti, hy, hx⟩, hval ti ch y x hti hch hy hx]
    · intro ch ti y x q hq
      rw [hcall] at hq
      simp only [tensorAt, Option.some.injEq] at hq
      by_cases hin : ch < cn ∧ ti < (f0 :: fs).length ∧ y < h0 ∧ x < w0
      · rw [if_pos hin] at hq
        obtain ⟨hch, hti, hy, hx⟩ := hin
        rw [hval ti ch y x hti hch hy hx] at hq
        subst hq
        have hmem : (f0 :: fs).getD ti (Frame.obj 0) ∈ f0 :: fs := by
          rw [List.getD_eq_getElem (f0 :: fs) (Frame.obj 0) hti]
          exact List.getElem_mem hti
        have hb := hrange _ hmem y (w0 - 1 - x) ch
        exact ⟨div_nonneg hb.1 (by norm_num), by
          rw [div_le_one (by norm_num)]
          exact hb.2⟩
      · rw [if_neg hin] at hq
        subst hq
        norm_num

/-- C2 counterexample: on a one-frame 1 by 1 clip with channel values
(10, 20, 30), the output entry at channel 0 is 10 divided by 255 (the
code preserves the channel order and mirrors the width axis), not the
claimed value of input channel C - 1 - 0 = 2, which is 30 divided by
255. -/
theorem toTensor_channel_reversal_cex :
    tensorAt (ToTensor.call 3 [Frame.arr exA3]) 0 0 0 0 = Option.some (10 / 255)
    ∧ exA3.data 0 0 (3 - 1 - 0) / 255 = 30 / 255
    ∧ (10 : ℚ) / 255 ≠ 30 / 255 := by
  refine ⟨rfl, rfl, by norm_num⟩

/-- C2 witness: the amended theorem applied to the concrete one-frame
clip, giving the output shape (3, 1, 1, 1). -/
theorem toTensor_pack_spec_witness :
    tensorShape (ToTensor.call 3 [Frame.arr exA3]) = Option.some (3, 1, 1, 1) :=
  (toTensor_pack_spec 3 1 1 [Frame.arr exA3] (by simp)
    (by
      intro f hf
      simp only [List.mem_singleton] at hf
      subst hf
      exact ⟨rfl, rfl, rfl⟩)
    (by
      intro f hf
      simp only [List.mem_singleton] at hf
      subst hf
      intro y x ch
      simp only [frameVal, exA3]
      constructor <;> split_ifs <;> norm_num)).1

/-- Errors of one conversion-loop iteration of ToTensor are TypeError (an
unsupported object) or ValueError (a broadcast mismatch), never the
channel-count assertion. -/
lemma convertFrame_error (cn h0 w0 : Nat) (f : Frame) (e : Err)
    (he : ToTensor.convertFrame cn h0 w0 f = Except.error e) :
    e = Err.typeError ∨ e = Err.valueError := by
  cases f with
  | arr a =>
    simp only [ToTensor.convertFrame, frameToArray] at he
    by_cases hb : (a.c = cn ∨ a.c = 1) ∧ (a.h = h0 ∨ a.h = 1) ∧ (a.w = w0 ∨ a.w = 1)
    · rw [ToTensor.assignSlice, if_pos hb] at he
      exact absurd he (by simp)
    · rw [ToTensor.assignSlice, if_neg hb] at he
      right
      injection he with he2
      exact he2.symm
  | pil p =>
    simp only [ToTensor.convertFrame, frameToArray] at he
    by_cases hb : ((pilToArray p).c = cn ∨ (pilToArray p).c = 1)
        ∧ ((pilToArray p).h = h0 ∨ (pilToArray p).h = 1)
        ∧ ((pilToArray p).w = w0 ∨ (pilToArray p).w = 1)
    · rw [ToTensor.assignSlice, if_pos hb] at he
      exact absurd he (by simp)
    · rw [ToTensor.assignSlice, if_neg hb] at he
      right
      injection he with he2
      exact he2.symm
  | obj t =>
    simp only [ToTensor.convertFrame, frameToArray] at he
    left
    injection he with he2
    exact he2.symm

/-- Once the first-frame shape check passed, ToTensor never raises the
channel-count assertion. -/
lemma toTensor_no_assert_after_shape (cn : Nat) (f0 : Frame) (fs : List Frame)
    (h0 w0 : Nat) (hshape : ToTensor.firstShape cn f0 = Except.ok (h0, w0)) :
    ToTensor.call cn (f0 :: fs) ≠ Except.error Err.assertionError := by
  intro herr
  simp only [ToTensor.call, hshape] at herr
  cases he : listMapM (ToTensor.convertFrame cn h0 w0) (f0 :: fs) with
  | ok slices => rw [he] at herr; exact absurd herr (by simp)
  | error e =>
    rw [he] at herr
    injection herr with herr2
    obtain ⟨f, _, hfe⟩ := listMapM_error _ _ _ he
    rcases convertFrame_error cn h0 w0 f e hfe with h | h <;> rw [h] at herr2 <;>
      exact Err.noConfusion herr2

/-- C8 (amended): ToTensor raises the channel-count assertion exactly when
the FIRST frame of the clip is an array whose channel count differs from
channel_nb; a wrong-channel array frame later in the clip never triggers
the channel-count assertion (the conversion loop can only raise TypeError
or a broadcast ValueError, and a size-1 channel axis even broadcasts
silently). -/
theorem toTensor_assert_iff_first_frame (cn : Nat) (clip : List Frame) :
    ToTensor.call cn clip = Except.error Err.assertionError
      ↔ ∃ a rest, clip = Frame.arr a :: rest ∧ a.c ≠ cn := by
  cases clip with
  | nil =>
    constructor
    · intro herr
      exact absurd herr (by simp [ToTensor.call])
    · rintro ⟨a, rest, hcons, _⟩
      exact List.noConfusion hcons
  | cons f0 fs =>
    cases f0 with
    | arr a =>
      by_cases hc : a.c = cn
      · constructor
        · intro herr
          exact absurd herr (toTensor_no_assert_after_shape cn (Frame.arr a) fs a.h a.w
            (by simp [ToTensor.firstShape, hc]))
        · rintro ⟨a2, rest2, hcons, hne2⟩
          have ha2 : a = a2 := Frame.arr.inj (List.head_eq_of_cons_eq hcons)
          exact absurd (ha2 ▸ hc) hne2
      · constructor
        · intro _
          exact ⟨a, fs, rfl, hc⟩
        · intro _
          simp [ToTensor.call, ToTensor.firstShape, hc]
    | pil p =>
      constructor
      · intro herr
        exact absurd herr (toTensor_no_assert_after_shape cn (Frame.pil p) fs
          p.height p.width rfl)
      · rintro ⟨a2, rest2, hcons, _⟩
        exact Frame.noConfusion (List.head_eq_of_cons_eq hcons)
    | obj t =>
      constructor
      · intro herr
        exact absurd herr (by simp [ToTensor.call, ToTensor.firstShape])
      · rintro ⟨a2, rest2, hcons, _⟩
        exact Frame.noConfusion (List.head_eq_of_cons_eq hcons)

/-- C8 counterexample: a clip whose first frame is a 1 by 1 PIL image and
whose second frame is a 1 by 1 array with 4 channels raises a broadcast
ValueError, not the channel-count assertion the claim demands for every
clip containing a wrong-channel array frame. -/
theorem toTensor_assert_cex :
    ToTensor.call 3 [Frame.pil exP1, Frame.arr exA4] = Except.error Err.valueError
    ∧ Err.valueError ≠ Err.assertionError :=
  ⟨rfl, by decide⟩

/-- C8 witness: the amended theorem applied to a concrete one-frame clip
whose first frame is a 4-channel array, with channel_nb = 3. -/
theorem toTensor_assert_iff_witness :
    ToTensor.call 3 [Frame.arr exA4] = Except.error Err.assertionError :=
  (toTensor_assert_iff_first_frame 3 [Frame.arr exA4]).mpr ⟨exA4, [], rfl, by decide⟩
